import Mathlib

/-!
Verification of the grax GPU-monitoring utility (src/main.rs) against its
natural-language specification. Rust strings are shallowly embedded as lists
of characters; the process HashMap is embedded as an association list built
with insert / insert-if-absent operations, and its unspecified iteration
order is modelled by quantifying over permutations of the association list.
-/

namespace Grax

/-- Rust String, embedded as a list of characters. -/
abbrev Str := List Char

/-- Convert a Lean string literal to the embedded string type. -/
def strLit (s : String) : Str := s.data

/-- nvml UsedGpuMemory: a known byte count or the unavailable marker. -/
inductive UsedGpuMemory where
  | Used (bytes : Nat)
  | Unavailable
deriving DecidableEq

/-- A (pid, used_gpu_memory) pair as returned by the process queries. -/
abbrev Entry := Nat × UsedGpuMemory

/-- Character of a single decimal digit d (valid for d < 10). -/
def digitChar (d : Nat) : Char := Char.ofNat (48 + d)

/-- Decimal rendering with explicit fuel (fuel bounds the recursion depth). -/
def toDecimalAux : Nat → Nat → Str
  | 0, _ => []
  | fuel + 1, n =>
    if n < 10 then [digitChar n]
    else toDecimalAux fuel (n / 10) ++ [digitChar (n % 10)]

/-- Decimal rendering of a natural number, as Rust Display for integers. -/
def toDecimal (n : Nat) : Str := toDecimalAux (n + 1) n

/-- Left-aligned padding with spaces to width w, as the Rust format spec. -/
def padTo (w : Nat) (s : Str) : Str := s ++ List.replicate (w - s.length) ' '

/-- ASCII lowercasing of one character, modelling Rust to_lowercase. -/
def toLowerChar (c : Char) : Char :=
  if 65 ≤ c.toNat ∧ c.toNat ≤ 90 then Char.ofNat (c.toNat + 32) else c

/-- Lowercasing of a string, modelling Rust str::to_lowercase. -/
def lowerStr (s : Str) : Str := s.map toLowerChar

/-- Lexicographic less-or-equal on strings (Rust Ord for String),
comparing character code points. -/
def lexLe : Str → Str → Bool
  | [], _ => true
  | _ :: _, [] => false
  | a :: s, b :: t =>
    if a.toNat < b.toNat then true
    else if b.toNat < a.toNat then false
    else lexLe s t

/-- Insert an element into a sorted list, keeping earlier elements first on
ties (the stable placement used by a stable sort). -/
def insertOrd (le : α → α → Bool) (a : α) : List α → List α
  | [] => [a]
  | b :: l => if le a b then a :: b :: l else b :: insertOrd le a l

/-- Stable sort by a boolean comparator, modelling Rust slice::sort_by. -/
def stableSort (le : α → α → Bool) : List α → List α
  | [] => []
  | a :: l => insertOrd le a (stableSort le l)

/-- HashMap::insert on an association list: overwrite the value in place if
the key is present, otherwise append the pair. -/
def insertKV (k : Nat) (v : UsedGpuMemory) : List Entry → List Entry
  | [] => [(k, v)]
  | (k', v') :: l => if k = k' then (k, v) :: l else (k', v') :: insertKV k v l

/-- HashMap::entry(k).or_insert(v): keep the list unchanged if the key is
present, otherwise append the pair. -/
def orInsertKV (k : Nat) (v : UsedGpuMemory) : List Entry → List Entry
  | [] => [(k, v)]
  | (k', v') :: l => if k = k' then (k', v') :: l else (k', v') :: orInsertKV k v l

/-- Contents of the map after the first loop of get_gpu_processes: every
compute-process entry inserted (overwriting). -/
def computeMap (c : List Entry) : List Entry :=
  c.foldl (fun m e => insertKV e.1 e.2 m) []

/-- Contents of the process map after both loops of get_gpu_processes:
compute entries inserted, then graphics entries inserted only if absent. -/
def buildMap (c g : List Entry) : List Entry :=
  g.foldl (fun m e => orInsertKV e.1 e.2 m) (computeMap c)

/-- First-match lookup in an association list (HashMap lookup semantics,
well defined because the built maps have duplicate-free keys). -/
def lookupKV (k : Nat) : List Entry → Option UsedGpuMemory
  | [] => none
  | (k', v) :: l => if k = k' then some v else lookupKV k l

/-- Keys of an association list. -/
def keysOf (l : List Entry) : List Nat := l.map Prod.fst

/-- Reading of the last occurrence of pid k in a process list. -/
def lookupLast (c : List Entry) (k : Nat) : Option UsedGpuMemory :=
  c.foldl (fun acc e => if e.1 = k then some e.2 else acc) none

/-- Reading of the first occurrence of pid k in a process list. -/
def lookupFirst : List Entry → Nat → Option UsedGpuMemory
  | [], _ => none
  | e :: g, k => if e.1 = k then some e.2 else lookupFirst g k

/-- Mebibytes of a UsedGpuMemory reading, as the match in get_gpu_processes:
a known byte count divides by 1024 twice, Unavailable maps to 0. -/
def mibOfMem : UsedGpuMemory → Nat
  | .Used bytes => bytes / 1024 / 1024
  | .Unavailable => 0

/-- get_process_name: look the pid up in the system process table and fall
back to the sentinel "unknown" when the pid has no entry. -/
def get_process_name (sys : Nat → Option Str) (pid : Nat) : Str :=
  match sys pid with
  | some name => name
  | none => strLit "unknown"

/-- One formatted process row: pid, name and memory, each left-aligned and
space-padded to widths 8, 24 and 16, separated by single spaces and ending
in a newline. -/
def formatRow (pid : Nat) (name : Str) (mem : Nat) : Str :=
  padTo 8 (toDecimal pid) ++ [' '] ++ padTo 24 name ++ [' ']
    ++ padTo 16 (toDecimal mem) ++ ['\n']

/-- The row built for one map entry inside get_gpu_processes. -/
def rowOf (resolve : Nat → Str) (e : Entry) : Str :=
  formatRow e.1 (resolve e.1) (mibOfMem e.2)

/-- The comparator of the sort_by call: compare whole formatted rows after
lowercasing. -/
def rowLe (a b : Str) : Bool := lexLe (lowerStr a) (lowerStr b)

/-- get_gpu_processes, with the iteration order of the HashMap made explicit
as the list iter (a permutation of the map contents): when the map is
nonempty, format every entry and sort the rows by the lowercased row text. -/
def get_gpu_processes (iter : List Entry) (resolve : Nat → Str) : List Str :=
  if iter.isEmpty then []
  else stableSort rowLe (iter.map (rowOf resolve))

/-- get_gpu_memory_utilization: total, used and free bytes each divided by
1024 twice. -/
def get_gpu_memory_utilization (total used free : Nat) : Nat × Nat × Nat :=
  (total / 1024 / 1024, used / 1024 / 1024, free / 1024 / 1024)

/-- get_metrics: assemble the report text from the utilization percentage,
the memory readings in bytes, and the process rows. -/
def get_metrics (utilization total used free : Nat)
    (iter : List Entry) (resolve : Nat → Str) : Str :=
  strLit "Overall GPU utilization: " ++ toDecimal utilization ++ strLit "%\n"
    ++ strLit "---------------------------\n\n"
    ++ strLit "GPU Memory Usage: "
    ++ toDecimal (get_gpu_memory_utilization total used free).2.1
    ++ strLit " MiB used / "
    ++ toDecimal (get_gpu_memory_utilization total used free).1
    ++ strLit " MiB total ("
    ++ toDecimal (get_gpu_memory_utilization total used free).2.2
    ++ strLit " MiB free)\n"
    ++ strLit "---------------------------\n\n"
    ++ strLit "Processes using GPU memory:\n"
    ++ strLit "---------------------------\n\n"
    ++ padTo 8 (strLit "PID") ++ strLit " " ++ padTo 24 (strLit "NAME")
    ++ strLit " " ++ padTo 16 (strLit "GPU Memory (MiB)") ++ strLit "\n"
    ++ (get_gpu_processes iter resolve).flatten

/-- Substring membership helper: needle is a prefix of the haystack. -/
def startsWithStr : Str → Str → Bool
  | [], _ => true
  | _ :: _, [] => false
  | a :: s, b :: t => decide (a = b) && startsWithStr s t

/-- Substring membership: needle occurs contiguously in the haystack. -/
def containsSub (needle : Str) : Str → Bool
  | [] => needle.isEmpty
  | c :: rest => startsWithStr needle (c :: rest) || containsSub needle rest

/-- Character code points of a string. -/
def codes (s : Str) : List Nat := s.map Char.toNat

/-- Value of a string of decimal digit code points. -/
def decValN (l : List Nat) : Nat := l.foldl (fun a k => a * 10 + (k - 48)) 0

/-- The code points forming the leading digit run of a code point list. -/
def dTake (l : List Nat) : List Nat :=
  l.takeWhile (fun k => decide (48 ≤ k ∧ k ≤ 57))

/-- The pid encoded in the leading digit run of a formatted row. -/
def rowPid (r : Str) : Nat := decValN (dTake (codes r))

theorem digitChar_toNat (d : Nat) (h : d < 10) : (digitChar d).toNat = 48 + d := by
  interval_cases d <;> decide

theorem toDecimalAux_digits :
    ∀ fuel n, n < fuel → ∀ c ∈ toDecimalAux fuel n, 48 ≤ c.toNat ∧ c.toNat ≤ 57 := by
  intro fuel
  induction fuel with
  | zero => intro n h; omega
  | succ fuel ih =>
    intro n h c hc
    by_cases h10 : n < 10
    · simp only [toDecimalAux, if_pos h10, List.mem_singleton] at hc
      subst hc
      rw [digitChar_toNat n h10]
      omega
    · simp only [toDecimalAux, if_neg h10, List.mem_append, List.mem_singleton] at hc
      rcases hc with hc | hc
      · exact ih (n / 10) (by have := Nat.div_lt_self (by omega : 0 < n) (by omega : 1 < 10); omega) c hc
      · subst hc
        rw [digitChar_toNat (n % 10) (Nat.mod_lt n (by omega))]
        omega

theorem toDecimal_digits (n : Nat) : ∀ c ∈ toDecimal n, 48 ≤ c.toNat ∧ c.toNat ≤ 57 :=
  toDecimalAux_digits (n + 1) n (Nat.lt_succ_self n)

theorem decValN_append_one (l : List Nat) (k : Nat) :
    decValN (l ++ [k]) = decValN l * 10 + (k - 48) := by
  simp [decValN, List.foldl_append]

theorem decValN_toDecimalAux :
    ∀ fuel n, n < fuel → decValN (codes (toDecimalAux fuel n)) = n := by
  intro fuel
  induction fuel with
  | zero => intro n h; omega
  | succ fuel ih =>
    intro n h
    by_cases h10 : n < 10
    · simp [toDecimalAux, if_pos h10, codes, decValN, digitChar_toNat n h10]
    · have hdiv : n / 10 < fuel := by
        have := Nat.div_lt_self (by omega : 0 < n) (by omega : 1 < 10)
        omega
      have hmod : n % 10 < 10 := Nat.mod_lt n (by omega)
      simp only [toDecimalAux, if_neg h10, codes, List.map_append, List.map_cons,
        List.map_nil]
      rw [show (List.map Char.toNat (toDecimalAux fuel (n / 10))
            ++ [(digitChar (n % 10)).toNat]) = codes (toDecimalAux fuel (n / 10))
            ++ [(digitChar (n % 10)).toNat] from rfl]
      rw [decValN_append_one, ih (n / 10) hdiv, digitChar_toNat (n % 10) hmod]
      omega

theorem decValN_toDecimal (n : Nat) : decValN (codes (toDecimal n)) = n :=
  decValN_toDecimalAux (n + 1) n (Nat.lt_succ_self n)

theorem toDecimal_codes_inj {a b : Nat}
    (h : codes (toDecimal a) = codes (toDecimal b)) : a = b := by
  have ha := decValN_toDecimal a
  have hb := decValN_toDecimal b
  rw [h] at ha
  omega

theorem lexLe_total : ∀ x y : Str, lexLe x y = true ∨ lexLe y x = true := by
  intro x
  induction x with
  | nil => intro y; left; rfl
  | cons a s ih =>
    intro y
    cases y with
    | nil => right; rfl
    | cons b t =>
      simp only [lexLe]
      by_cases hab : a.toNat < b.toNat
      · left; simp [hab]
      · by_cases hba : b.toNat < a.toNat
        · have h' : ¬ a.toNat < b.toNat := by omega
          right; simp [hba, h']
        · rcases ih t with h | h
          · left; simp [hab, hba, h]
          · right; simp [hab, hba, h]

theorem lexLe_trans : ∀ x y z : Str, lexLe x y = true → lexLe y z = true → lexLe x z = true := by
  intro x
  induction x with
  | nil => intro y z _ _; rfl
  | cons a s ih =>
    intro y z hxy hyz
    cases y with
    | nil => simp [lexLe] at hxy
    | cons b t =>
      cases z with
      | nil => simp [lexLe] at hyz
      | cons c u =>
        simp only [lexLe] at hxy hyz ⊢
        by_cases hab : a.toNat < b.toNat <;> by_cases hbc : b.toNat < c.toNat <;>
          by_cases hba : b.toNat < a.toNat <;> by_cases hcb : c.toNat < b.toNat <;>
          simp [hab, hba, hbc, hcb] at hxy hyz ⊢ <;>
          first
          | omega
          | (have hac : a.toNat < c.toNat := by omega
             simp [hac])
          | (have hac : ¬ a.toNat < c.toNat := by omega
             have hca : ¬ c.toNat < a.toNat := by omega
             simp [hac, hca]
             first
             | exact ih t u hxy hyz
             | exact ⟨by omega, ih t u hxy hyz⟩)

theorem lexLe_antisymm_codes :
    ∀ x y : Str, lexLe x y = true → lexLe y x = true → codes x = codes y := by
  intro x
  induction x with
  | nil =>
    intro y _ hyx
    cases y with
    | nil => rfl
    | cons b t => simp [lexLe] at hyx
  | cons a s ih =>
    intro y hxy hyx
    cases y with
    | nil => simp [lexLe] at hxy
    | cons b t =>
      simp only [lexLe] at hxy hyx
      by_cases hab : a.toNat < b.toNat
      · have h' : ¬ b.toNat < a.toNat := by omega
        simp [h', hab] at hyx
      · by_cases hba : b.toNat < a.toNat
        · simp [hab, hba] at hxy
        · have hs := ih t (by simpa [hab, hba] using hxy)
            (by simpa [hab, hba] using hyx)
          simp only [codes, List.map_cons]
          rw [show a.toNat = b.toNat by omega]
          simpa [codes] using hs

theorem rowLe_total (a b : Str) : rowLe a b = true ∨ rowLe b a = true :=
  lexLe_total (lowerStr a) (lowerStr b)

theorem rowLe_trans {a b c : Str} (h₁ : rowLe a b = true) (h₂ : rowLe b c = true) :
    rowLe a c = true :=
  lexLe_trans (lowerStr a) (lowerStr b) (lowerStr c) h₁ h₂

theorem insertOrd_perm (le : α → α → Bool) (a : α) :
    ∀ l : List α, List.Perm (insertOrd le a l) (a :: l) := by
  intro l
  induction l with
  | nil => simp [insertOrd]
  | cons b t ih =>
    simp only [insertOrd]
    by_cases h : le a b = true
    · simp [h]
    · simp only [h]
      exact (ih.cons b).trans (List.Perm.swap a b t)

theorem stableSort_perm (le : α → α → Bool) :
    ∀ l : List α, List.Perm (stableSort le l) l := by
  intro l
  induction l with
  | nil => simp [stableSort]
  | cons a t ih =>
    exact ((insertOrd_perm le a (stableSort le t)).trans (ih.cons a))

theorem mem_insertOrd {le : α → α → Bool} {a x : α} {l : List α} :
    x ∈ insertOrd le a l ↔ x = a ∨ x ∈ l := by
  rw [(insertOrd_perm le a l).mem_iff]
  simp

theorem pairwise_insertOrd {le : α → α → Bool}
    (htot : ∀ a b, le a b = true ∨ le b a = true)
    (htrans : ∀ a b c, le a b = true → le b c = true → le a c = true)
    (a : α) :
    ∀ l : List α, List.Pairwise (fun x y => le x y = true) l →
      List.Pairwise (fun x y => le x y = true) (insertOrd le a l) := by
  intro l
  induction l with
  | nil => intro _; simp [insertOrd]
  | cons b t ih =>
    intro hp
    rcases List.pairwise_cons.mp hp with ⟨hb, ht⟩
    simp only [insertOrd]
    by_cases h : le a b = true
    · simp only [h, if_pos]
      refine List.pairwise_cons.mpr ⟨?_, hp⟩
      intro x hx
      rcases List.mem_cons.mp hx with rfl | hx'
      · exact h
      · exact htrans a b x h (hb x hx')
    · simp only [h, if_neg]
      refine List.pairwise_cons.mpr ⟨?_, ih ht⟩
      intro x hx
      rcases mem_insertOrd.mp hx with hxa | hx
      · rcases htot a b with h' | h'
        · exact absurd h' h
        · rw [hxa]; exact h'
      · exact hb x hx

theorem stableSort_pairwise {le : α → α → Bool}
    (htot : ∀ a b, le a b = true ∨ le b a = true)
    (htrans : ∀ a b c, le a b = true → le b c = true → le a c = true) :
    ∀ l : List α, List.Pairwise (fun x y => le x y = true) (stableSort le l) := by
  intro l
  induction l with
  | nil => simp [stableSort]
  | cons a t ih => exact pairwise_insertOrd htot htrans a (stableSort le t) ih

/-- Two sorted lists that are permutations of each other are equal, provided
the comparator is antisymmetric on the elements actually present. -/
theorem sorted_perm_eq {le : α → α → Bool} :
    ∀ l₁ l₂ : List α, List.Perm l₁ l₂ →
      List.Pairwise (fun x y => le x y = true) l₁ →
      List.Pairwise (fun x y => le x y = true) l₂ →
      (∀ a ∈ l₁, ∀ b ∈ l₁, le a b = true → le b a = true → a = b) →
      l₁ = l₂ := by
  intro l₁
  induction l₁ with
  | nil =>
    intro l₂ hperm _ _ _
    exact (hperm.nil_eq).symm ▸ rfl
  | cons a t₁ ih =>
    intro l₂ hperm hp₁ hp₂ hanti
    cases l₂ with
    | nil => exact absurd hperm.length_eq (by simp)
    | cons b t₂ =>
      rcases List.pairwise_cons.mp hp₁ with ⟨ha, ht₁⟩
      rcases List.pairwise_cons.mp hp₂ with ⟨hb, ht₂⟩
      have hab : a = b := by
        have hbmem : b ∈ a :: t₁ := hperm.mem_iff.mpr (by simp)
        have hamem : a ∈ b :: t₂ := hperm.mem_iff.mp (by simp)
        rcases List.mem_cons.mp hbmem with h | h
        · exact h.symm
        · rcases List.mem_cons.mp hamem with h' | h'
          · exact h'
          · have h₁ : le a b = true := ha b h
            have h₂ : le b a = true := hb a h'
            exact hanti a (by simp) b (by simp [h]) h₁ h₂
      subst hab
      have htperm : List.Perm t₁ t₂ := hperm.cons_inv
      have : t₁ = t₂ := by
        refine ih t₂ htperm ht₁ ht₂ ?_
        intro x hx y hy hxy hyx
        exact hanti x (by simp [hx]) y (by simp [hy]) hxy hyx
      rw [this]

/-- Left-biased choice on options (first result wins). -/
def orOpt (a b : Option UsedGpuMemory) : Option UsedGpuMemory :=
  match a with
  | some x => some x
  | none => b

theorem orOpt_none_left (b : Option UsedGpuMemory) : orOpt none b = b := rfl

theorem orOpt_some (x : UsedGpuMemory) (b : Option UsedGpuMemory) :
    orOpt (some x) b = some x := rfl

theorem orOpt_assoc (a b c : Option UsedGpuMemory) :
    orOpt (orOpt a b) c = orOpt a (orOpt b c) := by
  cases a <;> rfl

theorem orOpt_none_right (a : Option UsedGpuMemory) : orOpt a none = a := by
  cases a <;> rfl

theorem lookup_insertKV (k k' : Nat) (v : UsedGpuMemory) :
    ∀ m, lookupKV k (insertKV k' v m) = if k = k' then some v else lookupKV k m := by
  intro m
  induction m with
  | nil =>
    simp only [insertKV, lookupKV]
  | cons e m ih =>
    obtain ⟨k₀, v₀⟩ := e
    simp only [insertKV]
    by_cases h : k' = k₀
    · subst h
      by_cases hk : k = k'
      · subst hk; simp [lookupKV]
      · simp [lookupKV, hk]
    · simp only [h, if_neg, lookupKV]
      by_cases hk : k = k₀
      · subst hk
        simp [lookupKV, show ¬ k = k' from fun hh => h hh.symm]
      · simp [lookupKV, hk, ih]

theorem lookup_orInsertKV (k k' : Nat) (v : UsedGpuMemory) :
    ∀ m, lookupKV k (orInsertKV k' v m)
      = if k = k' then orOpt (lookupKV k m) (some v) else lookupKV k m := by
  intro m
  induction m with
  | nil =>
    simp only [orInsertKV, lookupKV]
    by_cases hk : k = k'
    · simp [hk, orOpt]
    · simp [hk]
  | cons e m ih =>
    obtain ⟨k₀, v₀⟩ := e
    simp only [orInsertKV]
    by_cases h : k' = k₀
    · subst h
      by_cases hk : k = k'
      · subst hk; simp [lookupKV, orOpt]
      · simp [lookupKV, hk]
    · simp only [h, if_neg, lookupKV]
      by_cases hk : k = k₀
      · subst hk
        simp [show ¬ k = k' from fun hh => h hh.symm, orOpt]
      · simp [hk, ih]

theorem lookupLast_acc (k : Nat) :
    ∀ (c : List Entry) (acc : Option UsedGpuMemory),
      c.foldl (fun acc e => if e.1 = k then some e.2 else acc) acc
        = orOpt (lookupLast c k) acc := by
  intro c
  induction c with
  | nil => intro acc; simp [lookupLast, orOpt]
  | cons e c ih =>
    intro acc
    simp only [List.foldl_cons, lookupLast] at ih ⊢
    rw [ih, ih (if e.1 = k then some e.2 else none), orOpt_assoc]
    by_cases h : e.1 = k
    · simp [h, orOpt_some]
    · simp [h, orOpt_none_left]

theorem lookup_computeMap_aux (k : Nat) :
    ∀ (c : List Entry) (m : List Entry),
      lookupKV k (c.foldl (fun m e => insertKV e.1 e.2 m) m)
        = orOpt (lookupLast c k) (lookupKV k m) := by
  intro c
  induction c with
  | nil => intro m; simp [lookupLast, orOpt]
  | cons e c ih =>
    intro m
    simp only [List.foldl_cons]
    rw [ih, lookup_insertKV]
    have hLast : lookupLast (e :: c) k
        = orOpt (lookupLast c k) (if e.1 = k then some e.2 else none) := by
      simp only [lookupLast, List.foldl_cons]
      exact lookupLast_acc k c (if e.1 = k then some e.2 else none)
    rw [hLast, orOpt_assoc]
    by_cases h : e.1 = k
    · subst h
      simp [orOpt_some]
    · have h' : ¬ k = e.1 := fun hh => h hh.symm
      simp [h, h', orOpt_none_left]

theorem lookup_computeMap (k : Nat) (c : List Entry) :
    lookupKV k (computeMap c) = lookupLast c k := by
  rw [computeMap, lookup_computeMap_aux]
  simp [lookupKV, orOpt_none_right]

theorem lookup_orInsert_fold (k : Nat) :
    ∀ (g : List Entry) (m : List Entry),
      lookupKV k (g.foldl (fun m e => orInsertKV e.1 e.2 m) m)
        = orOpt (lookupKV k m) (lookupFirst g k) := by
  intro g
  induction g with
  | nil => intro m; simp [lookupFirst, orOpt_none_right]
  | cons e g ih =>
    intro m
    simp only [List.foldl_cons, lookupFirst]
    rw [ih, lookup_orInsertKV]
    by_cases h : e.1 = k
    · subst h
      simp only [if_pos, orOpt_assoc, orOpt_some]
    · have h' : ¬ k = e.1 := fun hh => h hh.symm
      simp [h, h']

/-- Characterization of the merged process map: the reading for a pid is the
last compute-list occurrence if any, otherwise the first graphics-list
occurrence. -/
theorem lookup_buildMap (k : Nat) (c g : List Entry) :
    lookupKV k (buildMap c g) = orOpt (lookupLast c k) (lookupFirst g k) := by
  rw [buildMap, lookup_orInsert_fold, lookup_computeMap]

theorem mem_keys_insertKV {x k : Nat} {v : UsedGpuMemory} :
    ∀ {m : List Entry}, x ∈ keysOf (insertKV k v m) ↔ x = k ∨ x ∈ keysOf m := by
  intro m
  induction m with
  | nil => simp [insertKV, keysOf]
  | cons e m ih =>
    obtain ⟨k₀, v₀⟩ := e
    simp only [insertKV]
    by_cases h : k = k₀
    · subst h
      simp only [if_pos rfl]
      simp [keysOf]
    · rw [if_neg h]
      simp only [keysOf, List.map_cons, List.mem_cons]
      rw [show List.map Prod.fst (insertKV k v m) = keysOf (insertKV k v m) from rfl, ih]
      simp [keysOf]
      tauto

theorem nodup_keys_insertKV {k : Nat} {v : UsedGpuMemory} :
    ∀ {m : List Entry}, (keysOf m).Nodup → (keysOf (insertKV k v m)).Nodup := by
  intro m
  induction m with
  | nil => intro _; simp [insertKV, keysOf]
  | cons e m ih =>
    obtain ⟨k₀, v₀⟩ := e
    intro hnd
    simp only [keysOf, List.map_cons, List.nodup_cons] at hnd
    obtain ⟨hk₀, hnd⟩ := hnd
    simp only [insertKV]
    by_cases h : k = k₀
    · subst h
      rw [if_pos rfl]
      simp only [keysOf, List.map_cons, List.nodup_cons]
      exact ⟨hk₀, hnd⟩
    · rw [if_neg h]
      simp only [keysOf, List.map_cons, List.nodup_cons]
      constructor
      · intro hmem
        rcases mem_keys_insertKV.mp hmem with h' | h'
        · exact h (h'.symm)
        · exact hk₀ h'
      · exact ih hnd

theorem mem_keys_orInsertKV {x k : Nat} {v : UsedGpuMemory} :
    ∀ {m : List Entry}, x ∈ keysOf (orInsertKV k v m) ↔ x = k ∨ x ∈ keysOf m := by
  intro m
  induction m with
  | nil => simp [orInsertKV, keysOf]
  | cons e m ih =>
    obtain ⟨k₀, v₀⟩ := e
    simp only [orInsertKV]
    by_cases h : k = k₀
    · subst h
      simp only [if_pos rfl]
      simp [keysOf]
    · rw [if_neg h]
      simp only [keysOf, List.map_cons, List.mem_cons]
      rw [show List.map Prod.fst (orInsertKV k v m) = keysOf (orInsertKV k v m) from rfl, ih]
      simp [keysOf]
      tauto

theorem nodup_keys_orInsertKV {k : Nat} {v : UsedGpuMemory} :
    ∀ {m : List Entry}, (keysOf m).Nodup → (keysOf (orInsertKV k v m)).Nodup := by
  intro m
  induction m with
  | nil => intro _; simp [orInsertKV, keysOf]
  | cons e m ih =>
    obtain ⟨k₀, v₀⟩ := e
    intro hnd
    simp only [keysOf, List.map_cons, List.nodup_cons] at hnd
    obtain ⟨hk₀, hnd⟩ := hnd
    simp only [orInsertKV]
    by_cases h : k = k₀
    · subst h
      rw [if_pos rfl]
      simp only [keysOf, List.map_cons, List.nodup_cons]
      exact ⟨hk₀, hnd⟩
    · rw [if_neg h]
      simp only [keysOf, List.map_cons, List.nodup_cons]
      constructor
      · intro hmem
        rcases mem_keys_orInsertKV.mp hmem with h' | h'
        · exact h (h'.symm)
        · exact hk₀ h'
      · exact ih hnd

theorem nodup_keys_insert_fold :
    ∀ (c : List Entry) (m : List Entry), (keysOf m).Nodup →
      (keysOf (c.foldl (fun m e => insertKV e.1 e.2 m) m)).Nodup := by
  intro c
  induction c with
  | nil => intro m h; exact h
  | cons e c ih =>
    intro m h
    simp only [List.foldl_cons]
    exact ih _ (nodup_keys_insertKV h)

theorem nodup_keys_orInsert_fold :
    ∀ (g : List Entry) (m : List Entry), (keysOf m).Nodup →
      (keysOf (g.foldl (fun m e => orInsertKV e.1 e.2 m) m)).Nodup := by
  intro g
  induction g with
  | nil => intro m h; exact h
  | cons e g ih =>
    intro m h
    simp only [List.foldl_cons]
    exact ih _ (nodup_keys_orInsertKV h)

/-- The merged process map has duplicate-free keys. -/
theorem nodup_keys_buildMap (c g : List Entry) : (keysOf (buildMap c g)).Nodup :=
  nodup_keys_orInsert_fold g (computeMap c)
    (nodup_keys_insert_fold c [] (by simp [keysOf]))

theorem entries_inj_of_nodup_keys :
    ∀ {l : List Entry}, (keysOf l).Nodup →
      ∀ e₁ ∈ l, ∀ e₂ ∈ l, e₁.1 = e₂.1 → e₁ = e₂ := by
  intro l
  induction l with
  | nil => intro _ e₁ h₁; simp at h₁
  | cons e l ih =>
    intro hnd e₁ h₁ e₂ h₂ hkey
    simp only [keysOf, List.map_cons, List.nodup_cons] at hnd
    obtain ⟨hk, hnd⟩ := hnd
    rcases List.mem_cons.mp h₁ with he₁ | he₁ <;> rcases List.mem_cons.mp h₂ with he₂ | he₂
    · rw [he₁, he₂]
    · exfalso
      apply hk
      rw [← he₁, hkey]
      exact List.mem_map_of_mem Prod.fst he₂
    · exfalso
      apply hk
      rw [← he₂, ← hkey]
      exact List.mem_map_of_mem Prod.fst he₁
    · exact ih hnd e₁ he₁ e₂ he₂ hkey

theorem lookup_mem {k : Nat} {v : UsedGpuMemory} :
    ∀ {l : List Entry}, lookupKV k l = some v → (k, v) ∈ l := by
  intro l
  induction l with
  | nil => intro h; simp [lookupKV] at h
  | cons e l ih =>
    obtain ⟨k₀, v₀⟩ := e
    intro h
    simp only [lookupKV] at h
    by_cases hk : k = k₀
    · simp only [hk, if_pos] at h
      obtain rfl := Option.some_inj.mp h
      simp [hk]
    · simp only [hk, if_neg] at h
      exact List.mem_cons_of_mem _ (ih h)

theorem toLowerChar_low {c : Char} (h : c.toNat < 65) : toLowerChar c = c := by
  unfold toLowerChar
  rw [if_neg]
  omega

theorem map_toLowerChar_digits :
    ∀ {d : Str}, (∀ c ∈ d, 48 ≤ c.toNat ∧ c.toNat ≤ 57) → List.map toLowerChar d = d := by
  intro d
  induction d with
  | nil => intro _; rfl
  | cons c d ih =>
    intro h
    have hc := h c (by simp)
    simp only [List.map_cons]
    rw [toLowerChar_low (by omega), ih (fun x hx => h x (by simp [hx]))]

theorem padTo_space_shape (w : Nat) (d r : Str) :
    ∃ r', padTo w d ++ ' ' :: r = d ++ ' ' :: r' := by
  unfold padTo
  cases h : w - d.length with
  | zero => exact ⟨r, by simp⟩
  | succ j =>
    refine ⟨List.replicate j ' ' ++ ' ' :: r, ?_⟩
    simp [List.replicate_succ, List.append_assoc]

theorem formatRow_shape (p : Nat) (n : Str) (m : Nat) :
    ∃ rest, formatRow p n m = toDecimal p ++ ' ' :: rest := by
  unfold formatRow
  simp only [List.append_assoc, List.singleton_append]
  exact padTo_space_shape 8 (toDecimal p) _

theorem takeWhile_append_stop {p : Nat → Bool} :
    ∀ {l₁ : List Nat} {x : Nat} {l₂ : List Nat},
      (∀ y ∈ l₁, p y = true) → p x = false →
      (l₁ ++ x :: l₂).takeWhile p = l₁ := by
  intro l₁
  induction l₁ with
  | nil =>
    intro x l₂ _ hx
    simp [List.takeWhile, hx]
  | cons y l₁ ih =>
    intro x l₂ hall hx
    have hy := hall y (by simp)
    simp only [List.cons_append, List.takeWhile]
    rw [hy]
    simp only [cond_true, List.cons.injEq, true_and]
    exact ih (fun z hz => hall z (by simp [hz])) hx

theorem dTake_lower_formatRow (p : Nat) (n : Str) (m : Nat) :
    dTake (codes (lowerStr (formatRow p n m))) = codes (toDecimal p) := by
  obtain ⟨rest, hshape⟩ := formatRow_shape p n m
  rw [hshape]
  unfold lowerStr codes
  simp only [List.map_append, List.map_cons]
  rw [map_toLowerChar_digits (toDecimal_digits p)]
  rw [show toLowerChar ' ' = ' ' from rfl]
  unfold dTake
  apply takeWhile_append_stop
  · intro y hy
    rcases List.mem_map.mp hy with ⟨c, hc, rfl⟩
    have := toDecimal_digits p c hc
    simp only [decide_eq_true_eq]
    omega
  · simp only [decide_eq_false_iff_not]
    intro hcontra
    have : (' ' : Char).toNat = 32 := rfl
    omega

theorem dTake_formatRow (p : Nat) (n : Str) (m : Nat) :
    dTake (codes (formatRow p n m)) = codes (toDecimal p) := by
  obtain ⟨rest, hshape⟩ := formatRow_shape p n m
  rw [hshape]
  unfold codes
  simp only [List.map_append, List.map_cons]
  unfold dTake
  apply takeWhile_append_stop
  · intro y hy
    rcases List.mem_map.mp hy with ⟨c, hc, rfl⟩
    have := toDecimal_digits p c hc
    simp only [decide_eq_true_eq]
    omega
  · simp only [decide_eq_false_iff_not]
    intro hcontra
    have : (' ' : Char).toNat = 32 := rfl
    omega

/-- The pid printed in a formatted row is recoverable from the row text. -/
theorem rowPid_formatRow (p : Nat) (n : Str) (m : Nat) :
    rowPid (formatRow p n m) = p := by
  unfold rowPid
  rw [dTake_formatRow, decValN_toDecimal]

theorem lower_row_pid_inj {p₁ p₂ : Nat} {n₁ n₂ : Str} {m₁ m₂ : Nat}
    (h : codes (lowerStr (formatRow p₁ n₁ m₁)) = codes (lowerStr (formatRow p₂ n₂ m₂))) :
    p₁ = p₂ := by
  apply toDecimal_codes_inj
  rw [← dTake_lower_formatRow p₁ n₁ m₁, ← dTake_lower_formatRow p₂ n₂ m₂, h]

/-- On the rows built from an association list with duplicate-free keys, the
sort comparator is antisymmetric. -/
theorem rows_antisymm {l : List Entry} (hnd : (keysOf l).Nodup) (resolve : Nat → Str)
    {a b : Str} (ha : a ∈ l.map (rowOf resolve)) (hb : b ∈ l.map (rowOf resolve))
    (hab : rowLe a b = true) (hba : rowLe b a = true) : a = b := by
  rcases List.mem_map.mp ha with ⟨e₁, he₁, rfl⟩
  rcases List.mem_map.mp hb with ⟨e₂, he₂, rfl⟩
  have hcodes := lexLe_antisymm_codes _ _ hab hba
  have hpid : e₁.1 = e₂.1 := lower_row_pid_inj hcodes
  rw [entries_inj_of_nodup_keys hnd e₁ he₁ e₂ he₂ hpid]

/-- The rendered process rows do not depend on the iteration order of the
process map. -/
theorem gpu_processes_det {c g : List Entry} {resolve : Nat → Str} {iter₁ iter₂ : List Entry}
    (h₁ : List.Perm iter₁ (buildMap c g)) (h₂ : List.Perm iter₂ (buildMap c g)) :
    get_gpu_processes iter₁ resolve = get_gpu_processes iter₂ resolve := by
  have hiter : List.Perm iter₁ iter₂ := h₁.trans h₂.symm
  unfold get_gpu_processes
  by_cases hm : iter₁.isEmpty
  · have h₁nil : iter₁ = [] := List.isEmpty_iff.mp hm
    have h₂nil : iter₂ = [] := (h₁nil ▸ hiter).nil_eq.symm
    rw [h₁nil, h₂nil]
  · have h₂ne : ¬ iter₂.isEmpty = true := by
      intro hh
      have h₂nil : iter₂ = [] := List.isEmpty_iff.mp hh
      have h₁nil : iter₁ = [] := (h₂nil ▸ hiter).eq_nil
      exact hm (by simp [h₁nil])
    rw [if_neg hm, if_neg h₂ne]
    have hrt : ∀ a b c : Str, rowLe a b = true → rowLe b c = true → rowLe a c = true :=
      fun a b c hx hy => rowLe_trans hx hy
    refine sorted_perm_eq _ _
      ((stableSort_perm rowLe _).trans
        (((hiter.map (rowOf resolve))).trans (stableSort_perm rowLe _).symm))
      (stableSort_pairwise rowLe_total hrt _)
      (stableSort_pairwise rowLe_total hrt _) ?_
    intro a ha b hb hab hba
    have hmem : ∀ x : Str, x ∈ stableSort rowLe (iter₁.map (rowOf resolve)) →
        x ∈ (buildMap c g).map (rowOf resolve) := by
      intro x hx
      exact (h₁.map (rowOf resolve)).mem_iff.mp ((stableSort_perm rowLe _).mem_iff.mp hx)
    exact rows_antisymm (nodup_keys_buildMap c g) resolve (hmem a ha) (hmem b hb) hab hba

/-- The full report text does not depend on the iteration order of the
process map. -/
theorem get_metrics_det {u t us fr : Nat} {c g : List Entry} {resolve : Nat → Str}
    {iter₁ iter₂ : List Entry}
    (h₁ : List.Perm iter₁ (buildMap c g)) (h₂ : List.Perm iter₂ (buildMap c g)) :
    get_metrics u t us fr iter₁ resolve = get_metrics u t us fr iter₂ resolve := by
  unfold get_metrics
  rw [gpu_processes_det h₁ h₂]

/-- The rendered rows are a permutation of the formatted input rows. -/
theorem gpu_processes_perm (iter : List Entry) (resolve : Nat → Str) :
    List.Perm (get_gpu_processes iter resolve) (iter.map (rowOf resolve)) := by
  unfold get_gpu_processes
  by_cases h : iter.isEmpty
  · rw [if_pos h, List.isEmpty_iff.mp h]
    exact List.Perm.refl _
  · rw [if_neg h]
    exact stableSort_perm rowLe _

/-- The rendered rows ascend under the lowercased-row-text comparator. -/
theorem gpu_processes_sorted (iter : List Entry) (resolve : Nat → Str) :
    List.Pairwise (fun a b => rowLe a b = true) (get_gpu_processes iter resolve) := by
  unfold get_gpu_processes
  by_cases h : iter.isEmpty
  · rw [if_pos h]
    exact List.Pairwise.nil
  · rw [if_neg h]
    exact stableSort_pairwise rowLe_total (fun a b c hx hy => rowLe_trans hx hy) _

/-- The sorting demanded by the specification text (spec-side definition, for
comparison with the code): order the rows by the resolved process name,
case-insensitively, ascending, ties broken by the stable input order. -/
def specNameSortedRows (entries : List Entry) (resolve : Nat → Str) : List Str :=
  (stableSort (fun a b => lexLe (lowerStr a.2.1) (lowerStr b.2.1))
      (entries.map (fun e => (e.1, resolve e.1, mibOfMem e.2)))).map
    (fun x => formatRow x.1 x.2.1 x.2.2)

set_option maxRecDepth 40000 in
/-- Claim C1 fails on the code: with compute entries for pid 2 (name "alpha")
and pid 1 (name "beta"), the rendered rows put the "beta" row (pid 1) before
the "alpha" row (pid 2), while a case-insensitive sort by name would put
"alpha" first; the code's sort key is the lowercased whole row text, which
begins with the pid column. -/
theorem c1_counterexample :
    get_gpu_processes
        (buildMap [(2, UsedGpuMemory.Used 0), (1, UsedGpuMemory.Used 0)] [])
        (fun k => if k = 1 then strLit "beta" else strLit "alpha")
      ≠ specNameSortedRows
        (buildMap [(2, UsedGpuMemory.Used 0), (1, UsedGpuMemory.Used 0)] [])
        (fun k => if k = 1 then strLit "beta" else strLit "alpha") := by
  decide

/-- Claim C1 (amended): the rendered process rows are the formatted input
rows reordered so that they ascend under case-insensitive lexicographic
comparison of the entire row text, whose leading field is the pid column
(so the order is driven by the pid text before the name). -/
theorem c1_rows_sorted_by_lowercased_row_text (iter : List Entry) (resolve : Nat → Str) :
    List.Pairwise (fun a b => rowLe a b = true) (get_gpu_processes iter resolve)
    ∧ List.Perm (get_gpu_processes iter resolve) (iter.map (rowOf resolve)) :=
  ⟨gpu_processes_sorted iter resolve, gpu_processes_perm iter resolve⟩

/-- Claim C2: when pid k appears in both process lists with different
readings (vc the reading stored by the compute loop, vg the one the graphics
loop would store), the merged map keeps the compute reading and the rendered
table contains the row built from the compute reading. -/
theorem c2_compute_reading_wins (c g : List Entry) (k : Nat) (vc vg : UsedGpuMemory)
    (resolve : Nat → Str) (iter : List Entry)
    (hc : lookupLast c k = some vc) (hg : lookupFirst g k = some vg) (hne : vc ≠ vg)
    (hiter : List.Perm iter (buildMap c g)) :
    lookupKV k (buildMap c g) = some vc
    ∧ formatRow k (resolve k) (mibOfMem vc) ∈ get_gpu_processes iter resolve := by
  have hbm : lookupKV k (buildMap c g) = some vc := by
    rw [lookup_buildMap, hc, orOpt_some]
  refine ⟨hbm, ?_⟩
  have hmem : (k, vc) ∈ iter := hiter.mem_iff.mpr (lookup_mem hbm)
  have hrow : formatRow k (resolve k) (mibOfMem vc) ∈ iter.map (rowOf resolve) :=
    List.mem_map.mpr ⟨(k, vc), hmem, rfl⟩
  exact (gpu_processes_perm iter resolve).mem_iff.mpr hrow

/-- Witness for C2 at a concrete input: pid 5 has compute reading 2097152
bytes and graphics reading 0 bytes; the merged reading and the rendered row
both come from the compute list. -/
theorem c2_witness :
    lookupKV 5 (buildMap [(5, UsedGpuMemory.Used 2097152)] [(5, UsedGpuMemory.Used 0)])
      = some (UsedGpuMemory.Used 2097152)
    ∧ formatRow 5 (strLit "p") (mibOfMem (UsedGpuMemory.Used 2097152))
      ∈ get_gpu_processes
          (buildMap [(5, UsedGpuMemory.Used 2097152)] [(5, UsedGpuMemory.Used 0)])
          (fun _ => strLit "p") :=
  c2_compute_reading_wins [(5, UsedGpuMemory.Used 2097152)] [(5, UsedGpuMemory.Used 0)]
    5 (UsedGpuMemory.Used 2097152) (UsedGpuMemory.Used 0) (fun _ => strLit "p") _
    (by decide) (by decide) (by decide) (List.Perm.refl _)

/-- The layout of the specification's report (section 6) with an empty
process table: the header lines and the column-header row, and nothing after
them. Written from the spec's format block for comparison with the code. -/
def headerOnlyReport (u t us fr : Nat) : Str :=
  strLit "Overall GPU utilization: " ++ toDecimal u ++ strLit "%\n"
    ++ strLit "---------------------------\n\n"
    ++ strLit "GPU Memory Usage: " ++ toDecimal (us / 1048576) ++ strLit " MiB used / "
    ++ toDecimal (t / 1048576) ++ strLit " MiB total (" ++ toDecimal (fr / 1048576)
    ++ strLit " MiB free)\n"
    ++ strLit "---------------------------\n\n"
    ++ strLit "Processes using GPU memory:\n"
    ++ strLit "---------------------------\n\n"
    ++ strLit "PID      NAME                     GPU Memory (MiB)\n"

set_option maxRecDepth 40000 in
/-- Claim C3 fails on the code: with both process lists empty the report does
not contain the literal line "(No active GPU processes)" anywhere - the code
has no such placeholder. -/
theorem c3_counterexample :
    containsSub (strLit "(No active GPU processes)")
      (get_metrics 0 0 0 0 (buildMap [] []) (fun _ => strLit "unknown")) = false := by
  decide

/-- Claim C3 (amended): with both process lists empty the report consists of
exactly the utilization line, the memory line, the section headers and the
column-header row, with zero process rows; no placeholder line is printed. -/
theorem c3_empty_lists_header_only (u t us fr : Nat) (resolve : Nat → Str) :
    get_metrics u t us fr (buildMap [] []) resolve = headerOnlyReport u t us fr
    ∧ get_gpu_processes (buildMap [] []) resolve = [] := by
  constructor
  · unfold get_metrics headerOnlyReport get_gpu_memory_utilization
    rw [show get_gpu_processes (buildMap [] []) resolve = [] from rfl]
    rw [Nat.div_div_eq_div_mul, Nat.div_div_eq_div_mul, Nat.div_div_eq_div_mul]
    norm_num
    decide
  · rfl

/-- Claim C4: for fixed utilization, memory readings, process lists and name
resolver, the report text is the same whatever iteration order the process
map presents its entries in; hence two calls of the snapshot builder on
identical inputs produce byte-identical report text. -/
theorem c4_report_deterministic (u t us fr : Nat) (c g : List Entry)
    (resolve : Nat → Str) (iter₁ iter₂ : List Entry)
    (h₁ : List.Perm iter₁ (buildMap c g)) (h₂ : List.Perm iter₂ (buildMap c g)) :
    get_metrics u t us fr iter₁ resolve = get_metrics u t us fr iter₂ resolve :=
  get_metrics_det h₁ h₂

/-- Witness for C4 at a concrete input: the two opposite iteration orders of
a two-entry map give the same report. -/
theorem c4_witness :
    get_metrics 7 1 2 3
      [(1, UsedGpuMemory.Used 0), (2, UsedGpuMemory.Unavailable)]
      (fun _ => strLit "x")
    = get_metrics 7 1 2 3
      [(2, UsedGpuMemory.Unavailable), (1, UsedGpuMemory.Used 0)]
      (fun _ => strLit "x") :=
  c4_report_deterministic 7 1 2 3
    [(1, UsedGpuMemory.Used 0), (2, UsedGpuMemory.Unavailable)] []
    (fun _ => strLit "x") _ _ (by decide) (by decide)

/-- Claim C5: every displayed mebibyte value (memory total, used, free, and
each per-process reading) is the byte count divided by 1048576 with integer
truncation; 1048575 bytes display as 0 and 2097152 bytes as 2. -/
theorem c5_mib_truncating_division (t us fr b : Nat) :
    get_gpu_memory_utilization t us fr = (t / 1048576, us / 1048576, fr / 1048576)
    ∧ mibOfMem (UsedGpuMemory.Used b) = b / 1048576
    ∧ mibOfMem (UsedGpuMemory.Used 1048575) = 0
    ∧ mibOfMem (UsedGpuMemory.Used 2097152) = 2
    ∧ mibOfMem UsedGpuMemory.Unavailable = 0 := by
  refine ⟨?_, ?_, by decide, by decide, rfl⟩
  · unfold get_gpu_memory_utilization
    rw [Nat.div_div_eq_div_mul, Nat.div_div_eq_div_mul, Nat.div_div_eq_div_mul]
  · rw [show mibOfMem (UsedGpuMemory.Used b) = b / 1024 / 1024 from rfl,
      Nat.div_div_eq_div_mul]

/-- The four fallible device queries feeding one polling tick. -/
structure Tick (ε : Type) where
  utilQ : Except ε Nat
  memQ : Except ε (Nat × Nat × Nat)
  computeQ : Except ε (List Entry)
  graphicsQ : Except ε (List Entry)

/-- Whether a query result is an error. -/
def isErr {ε α : Type} : Except ε α → Bool
  | Except.error _ => true
  | Except.ok _ => false

/-- get_metrics with the fallible queries explicit: each query result is
propagated with the question-mark operator, in source order (utilization,
memory, compute processes, graphics processes). -/
def get_metricsE {ε : Type} (resolve : Nat → Str) (t : Tick ε) : Except ε Str :=
  match t.utilQ with
  | Except.error e => Except.error e
  | Except.ok u =>
    match t.memQ with
    | Except.error e => Except.error e
    | Except.ok mem =>
      match t.computeQ with
      | Except.error e => Except.error e
      | Except.ok c =>
        match t.graphicsQ with
        | Except.error e => Except.error e
        | Except.ok g =>
          Except.ok (get_metrics u mem.1 mem.2.1 mem.2.2 (buildMap c g) resolve)

/-- The if-let around get_metrics in main: the report is written only when
the tick succeeded; an error writes nothing. -/
def tickRender {ε : Type} : Except ε Str → Option Str
  | Except.ok s => some s
  | Except.error _ => none

/-- The watch loop over a stream of tick inputs: every tick is rendered
independently and the loop never stops on a failed tick. -/
def watchLoop {ε : Type} (resolve : Nat → Str) : List (Tick ε) → List (Option Str)
  | [] => []
  | t :: ts => tickRender (get_metricsE resolve t) :: watchLoop resolve ts

/-- Claim C6: if any single query of a tick fails, the snapshot builder
returns the error, nothing of that tick's report is written, and the watch
loop still processes all remaining ticks. -/
theorem c6_failed_query_skips_tick {ε : Type} (resolve : Nat → Str) (t : Tick ε)
    (h : isErr t.utilQ = true ∨ isErr t.memQ = true
      ∨ isErr t.computeQ = true ∨ isErr t.graphicsQ = true) :
    (∃ e, get_metricsE resolve t = Except.error e)
    ∧ tickRender (get_metricsE resolve t) = none
    ∧ ∀ ts : List (Tick ε),
        watchLoop resolve (t :: ts) = none :: watchLoop resolve ts := by
  obtain ⟨uQ, mQ, cQ, gQ⟩ := t
  have herr : ∃ e, get_metricsE resolve (⟨uQ, mQ, cQ, gQ⟩ : Tick ε) = Except.error e := by
    cases uQ with
    | error e => exact ⟨e, rfl⟩
    | ok u =>
      cases mQ with
      | error e => exact ⟨e, rfl⟩
      | ok mem =>
        cases cQ with
        | error e => exact ⟨e, rfl⟩
        | ok c =>
          cases gQ with
          | error e => exact ⟨e, rfl⟩
          | ok g => simp [isErr] at h
  obtain ⟨e, he⟩ := herr
  refine ⟨⟨e, he⟩, by rw [he]; rfl, ?_⟩
  intro ts
  simp only [watchLoop, he, tickRender]

/-- Witness for C6 at a concrete input: a failed utilization query yields an
error, renders nothing, and leaves the rest of the loop intact. -/
theorem c6_witness :
    (∃ e, get_metricsE (fun _ => strLit "x")
        (⟨Except.error 9, Except.ok (0, 0, 0), Except.ok [], Except.ok []⟩ : Tick Nat)
      = Except.error e)
    ∧ tickRender (get_metricsE (fun _ => strLit "x")
        (⟨Except.error 9, Except.ok (0, 0, 0), Except.ok [], Except.ok []⟩ : Tick Nat))
      = none
    ∧ ∀ ts : List (Tick Nat),
        watchLoop (fun _ => strLit "x")
          ((⟨Except.error 9, Except.ok (0, 0, 0), Except.ok [], Except.ok []⟩ : Tick Nat) :: ts)
        = none :: watchLoop (fun _ => strLit "x") ts :=
  c6_failed_query_skips_tick (fun _ => strLit "x")
    (⟨Except.error 9, Except.ok (0, 0, 0), Except.ok [], Except.ok []⟩ : Tick Nat)
    (Or.inl rfl)

set_option maxRecDepth 40000 in
/-- Claim C7: the end-to-end scenario with utilization 42, memory
8589934592 / 4294967296 / 4294967296 bytes, one compute process (pid 100,
1048576 bytes, name "render") and no graphics processes renders exactly the
expected report, including the single process row with column widths
8, 24 and 16. -/
theorem c7_end_to_end_report :
    get_metrics 42 8589934592 4294967296 4294967296
      (buildMap [(100, UsedGpuMemory.Used 1048576)] [])
      (fun p => if p = 100 then strLit "render" else strLit "unknown")
    = strLit "Overall GPU utilization: 42%\n---------------------------\n\nGPU Memory Usage: 4096 MiB used / 8192 MiB total (4096 MiB free)\n---------------------------\n\nProcesses using GPU memory:\n---------------------------\n\nPID      NAME                     GPU Memory (MiB)\n100      render                   1               \n" := by
  decide

/-- Claim C8: a process whose reading is the Unavailable marker converts to
0 mebibytes, and its rendered row is the ordinary row with 0 in the memory
column (no error, no blank). -/
theorem c8_unavailable_renders_zero (iter : List Entry) (resolve : Nat → Str)
    (pid : Nat) (h : (pid, UsedGpuMemory.Unavailable) ∈ iter) :
    mibOfMem UsedGpuMemory.Unavailable = 0
    ∧ formatRow pid (resolve pid) 0 ∈ get_gpu_processes iter resolve := by
  refine ⟨rfl, ?_⟩
  have hrow : formatRow pid (resolve pid) 0 ∈ iter.map (rowOf resolve) :=
    List.mem_map.mpr ⟨(pid, UsedGpuMemory.Unavailable), h, rfl⟩
  exact (gpu_processes_perm iter resolve).mem_iff.mpr hrow

/-- Witness for C8 at a concrete input. -/
theorem c8_witness :
    mibOfMem UsedGpuMemory.Unavailable = 0
    ∧ formatRow 3 (strLit "p") 0
      ∈ get_gpu_processes [(3, UsedGpuMemory.Unavailable)] (fun _ => strLit "p") :=
  c8_unavailable_renders_zero [(3, UsedGpuMemory.Unavailable)] (fun _ => strLit "p") 3
    (by decide)

/-- Claim C9: name resolution is total and never propagates a failure: a pid
missing from the process table resolves to the sentinel "unknown", and a
present pid resolves to its table name. -/
theorem c9_name_resolution_total (sys : Nat → Option Str) (pid : Nat) :
    (sys pid = none → get_process_name sys pid = strLit "unknown")
    ∧ (∀ name, sys pid = some name → get_process_name sys pid = name) := by
  constructor
  · intro h
    unfold get_process_name
    rw [h]
  · intro name h
    unfold get_process_name
    rw [h]

/-- Witness for C9 at concrete inputs: a miss yields "unknown", a hit yields
the table name. -/
theorem c9_witness :
    get_process_name (fun _ => none) 0 = strLit "unknown"
    ∧ get_process_name (fun _ => some (strLit "bash")) 1 = strLit "bash" :=
  ⟨(c9_name_resolution_total (fun _ => none) 0).1 rfl,
   (c9_name_resolution_total (fun _ => some (strLit "bash")) 1).2 (strLit "bash") rfl⟩

/-- Claim C10: the merged map has duplicate-free keys, so every pid owns at
most one rendered row (the pids read back from the rendered rows are
duplicate-free); the reading kept for a pid is the last occurrence in the
compute list if any (later compute duplicates overwrite earlier ones),
otherwise the first occurrence in the graphics list (graphics duplicates are
ignored once the pid is present). -/
theorem c10_pid_unique_rows (c g : List Entry) (k : Nat) (resolve : Nat → Str)
    (iter : List Entry) (hiter : List.Perm iter (buildMap c g)) :
    (keysOf (buildMap c g)).Nodup
    ∧ ((get_gpu_processes iter resolve).map rowPid).Nodup
    ∧ lookupKV k (buildMap c g) = orOpt (lookupLast c k) (lookupFirst g k) := by
  refine ⟨nodup_keys_buildMap c g, ?_, lookup_buildMap k c g⟩
  have hperm : List.Perm ((get_gpu_processes iter resolve).map rowPid)
      (((buildMap c g).map (rowOf resolve)).map rowPid) :=
    ((gpu_processes_perm iter resolve).trans (hiter.map (rowOf resolve))).map rowPid
  have hmapeq : ((buildMap c g).map (rowOf resolve)).map rowPid = keysOf (buildMap c g) := by
    rw [List.map_map]
    unfold keysOf
    have hfun : (rowPid ∘ rowOf resolve) = Prod.fst := by
      funext e
      simp only [Function.comp_apply]
      exact rowPid_formatRow e.1 (resolve e.1) (mibOfMem e.2)
    rw [hfun]
  rw [hmapeq] at hperm
  exact hperm.nodup_iff.mpr (nodup_keys_buildMap c g)

/-- Witness for C10 at a concrete input with duplicates inside both lists
and across them. -/
theorem c10_witness :
    (keysOf (buildMap
        [(1, UsedGpuMemory.Used 0), (1, UsedGpuMemory.Used 5), (3, UsedGpuMemory.Unavailable)]
        [(3, UsedGpuMemory.Used 7), (4, UsedGpuMemory.Used 9), (4, UsedGpuMemory.Used 1)])).Nodup
    ∧ ((get_gpu_processes (buildMap
        [(1, UsedGpuMemory.Used 0), (1, UsedGpuMemory.Used 5), (3, UsedGpuMemory.Unavailable)]
        [(3, UsedGpuMemory.Used 7), (4, UsedGpuMemory.Used 9), (4, UsedGpuMemory.Used 1)])
        (fun _ => strLit "p")).map rowPid).Nodup
    ∧ lookupKV 4 (buildMap
        [(1, UsedGpuMemory.Used 0), (1, UsedGpuMemory.Used 5), (3, UsedGpuMemory.Unavailable)]
        [(3, UsedGpuMemory.Used 7), (4, UsedGpuMemory.Used 9), (4, UsedGpuMemory.Used 1)])
      = orOpt
          (lookupLast
            [(1, UsedGpuMemory.Used 0), (1, UsedGpuMemory.Used 5), (3, UsedGpuMemory.Unavailable)] 4)
          (lookupFirst
            [(3, UsedGpuMemory.Used 7), (4, UsedGpuMemory.Used 9), (4, UsedGpuMemory.Used 1)] 4) :=
  c10_pid_unique_rows
    [(1, UsedGpuMemory.Used 0), (1, UsedGpuMemory.Used 5), (3, UsedGpuMemory.Unavailable)]
    [(3, UsedGpuMemory.Used 7), (4, UsedGpuMemory.Used 9), (4, UsedGpuMemory.Used 1)]
    4 (fun _ => strLit "p") _ (List.Perm.refl _)

end Grax
